import Mathlib

/-!
Verification of the long-context plugin of pocket-agent
(`src/plugins/long-context.ts` together with the `Message` type of
`src/index.ts`).  The TypeScript logic is shallowly embedded: JavaScript
numbers used for token budgets are modelled as `Int` (they may go negative),
token counts themselves are `Nat`, nullable message content is
`Option String`, and code that would throw a `TypeError` (applying the token
counter to a `null` content) returns `none` / an explicit error value.
-/

deriving instance DecidableEq for Except

namespace PocketAgent

/-- Roles a chat message can have (`src/index.ts`, `Message.role`). -/
inductive Role
  | user
  | assistant
  | system
  | tool
deriving DecidableEq

/-- Rendering of a role inside template strings such as `[${m.role}]`. -/
def Role.render : Role → String
  | .user => "user"
  | .assistant => "assistant"
  | .system => "system"
  | .tool => "tool"

/-- Chat message (`src/index.ts`).  `content` is `string | null` in the source
(`null` for tool-call-only turns), modelled as `Option String`.  The optional
fields `name`, `tool_calls` and `tool_call_id` are never read by the
long-context plugin and are omitted from the embedding. -/
structure Message where
  role : Role
  content : Option String
deriving DecidableEq

/-- Persisted conversation state (`long-context.ts`, `StoredState`). -/
structure StoredState where
  summary : String
  recentMessages : List Message
deriving DecidableEq

/-- The default token estimator `(text) => Math.ceil(text.length / 4)`
(`long-context.ts` line 102). -/
def defaultTokenCounter (s : String) : Nat := (s.length + 3) / 4

/-- Applying the injected counter to a possibly-null content.  The source
applies `tokenCounter` directly to `msg.content`; with the default estimator a
`null` content throws (`null.length`), modelled by `none`. -/
def tokenCost? (tc : String → Nat) (c : Option String) : Option Nat := c.map tc

/-- `calculateTotalTokens` (`long-context.ts` lines 75-77):
`messages.reduce((sum, msg) => sum + tokenCounter(msg.content), 0)`,
with the null-content failure made explicit. -/
def calculateTotalTokens? (msgs : List Message) (tc : String → Nat) : Option Nat :=
  msgs.foldl (fun sum m => sum.bind fun a => (tokenCost? tc m.content).map fun t => a + t)
    (some 0)

/-- Structural reformulation of the same total, convenient for proofs. -/
def sumCosts? (tc : String → Nat) : List Message → Option Nat
  | [] => some 0
  | m :: rest => (tokenCost? tc m.content).bind fun t => (sumCosts? tc rest).map fun r => t + r

/-- JavaScript `s.slice(0, e)` on the character sequence: a negative end
index counts from the end of the string, clamped at 0; `List.take` clamps an
end index past the end. -/
def jsSliceTo (s : String) (e : Int) : String :=
  String.mk (s.data.take (if e < 0 then ((s.length : Int) + e).toNat else e.toNat))

/-- JavaScript `s.toLowerCase()`, characterwise (adequate for the ASCII
contents considered here). -/
def jsToLower (s : String) : String := String.mk (s.data.map Char.toLower)

/-- Whether `needle` is a prefix of `hay` (character lists). -/
def charsHavePrefix : List Char → List Char → Bool
  | [], _ => true
  | _ :: _, [] => false
  | a :: as, b :: bs => a = b && charsHavePrefix as bs

/-- Scan of every start position, `needle` against suffixes of `hay`. -/
def includesAux (needle : List Char) : List Char → Bool
  | [] => needle.isEmpty
  | l@(_ :: rest) => charsHavePrefix needle l || includesAux needle rest

/-- JavaScript `hay.includes(needle)`. -/
def jsIncludes (hay needle : String) : Bool := includesAux needle.data hay.data

/-- The synthetic previous-summary marker message
(`long-context.ts` lines 180-183 and 339). -/
def mkSummaryMessage (summary : String) : Message :=
  ⟨.system, some ("PREVIOUS CONVERSATION SUMMARY:\n" ++ summary)⟩

/-- History candidates loaded in `beforeRun` (lines 176-188): the summary
marker first (when the stored summary is non-empty, i.e. truthy), then the
stored recent messages. -/
def historyCandidates : Option StoredState → List Message
  | none => []
  | some st =>
      (if st.summary.isEmpty then [] else [mkSummaryMessage st.summary]) ++ st.recentMessages

/-- Summary extraction in the fits branch (lines 241-248): when the stored
summary is truthy, the candidate list is non-empty and its head has role
`system`, the head is split off as the summary message. -/
def splitSummary (state : Option StoredState) (hc : List Message) :
    Option Message × List Message :=
  match state, hc with
  | some st, m :: rest =>
      if st.summary.isEmpty = false ∧ m.role = .system then (some m, rest) else (none, hc)
  | _, _ => (none, hc)

/-- Summary budget decision (lines 250-263): keep the summary and deduct its
cost when it fits the history budget, otherwise drop it entirely. -/
def summaryBudgetStep (tc : String → Nat) (hb : Int) (sm : Option Message) :
    Option (Option Message × Int) :=
  match sm with
  | none => some (none, hb)
  | some m =>
      (tokenCost? tc m.content).map fun st =>
        if ((st : Nat) : Int) ≤ hb then (some m, hb - ((st : Nat) : Int)) else (none, hb)

/-- Newest-first greedy selection loop shared by `beforeRun` (lines 265-279)
and `afterIteration` (lines 311-325).  The list argument is the reversed
candidate list; `used` is the running token total of the kept messages;
`keep` and `fold` are the accumulators (`unshift` = cons).  `beforeRun`'s
loop is the identical traversal except that it does not record the dropped
messages, so it reads off the first component only. -/
def greedyAux (tc : String → Nat) (budget : Int) :
    List Message → Nat → List Message → List Message → Option (List Message × List Message)
  | [], _, keep, fold => some (keep, fold)
  | m :: rest, used, keep, fold =>
      (tokenCost? tc m.content).bind fun t =>
        if ((used + t : Nat) : Int) ≤ budget then
          greedyAux tc budget rest (used + t) (m :: keep) fold
        else
          greedyAux tc budget rest used keep (m :: fold)

/-- Greedy partition of the candidates into the kept (newest messages whose
cumulative cost stays within the budget as scanned newest-first) and the
folded remainder. -/
def greedyPartition (tc : String → Nat) (budget : Int) (candidates : List Message) :
    Option (List Message × List Message) :=
  greedyAux tc budget candidates.reverse 0 [] []

/-- The `fittingHistory` list computed by `beforeRun`'s selection loop. -/
def fittingHistory (tc : String → Nat) (budget : Int) (candidates : List Message) :
    Option (List Message) :=
  (greedyPartition tc budget candidates).map Prod.fst

/-- Truncation notice appended to an oversized user turn (line 226). -/
def oversizeNotice (inputTokens : Nat) : String :=
  "\n... [SYSTEM WARNING: This input was too long (" ++ toString inputTokens ++
    " tokens) and has been truncated to fit the context window. The full content has been archived to history.]"

/-- The fits branch of `beforeRun` (lines 233-286): summary priority, then
greedy history fill, then `[system, summary?, fitting history, user turn]`.
`hb` is `availableTokens - inputTokens`. -/
def assembleFits (tc : String → Nat) (hb : Int) (state : Option StoredState)
    (sys ui : Message) (archive : List Message) :
    Option (List Message × List Message) :=
  (summaryBudgetStep tc hb (splitSummary state (historyCandidates state)).1).bind fun dec =>
    (fittingHistory tc dec.2 (splitSummary state (historyCandidates state)).2).map fun fits =>
      (archive, sys :: (dec.1.toList ++ fits ++ [ui]))

/-- The `beforeRun` hook (lines 168-293) on the configured-conversation path.
Inputs: the active-buffer budget, the injected counter, the loaded stored
state, the current History Archive contents, and the incoming message list
(`messages[0]` is the system prompt, the last message is the user turn when
`messages.length > 1`).  Returns the archive after any `appendHistory` call
together with the assembled message list; `none` models the `TypeError`
raised when the counter is applied to a `null` content (or an empty message
list, where `messages[0]` is `undefined`). -/
def beforeRun (abt : Nat) (tc : String → Nat) (state : Option StoredState)
    (archive : List Message) (messages : List Message) :
    Option (List Message × List Message) :=
  match messages with
  | [] => none
  | sys :: rest =>
      let hc := historyCandidates state
      let userInput := rest.getLast?
      (tokenCost? tc sys.content).bind fun systemTokens =>
        let availableTokens : Int := (abt : Int) - systemTokens
        match userInput with
        | some ui =>
            ui.content.bind fun c =>
              let inputTokens := tc c
              if ((inputTokens : Nat) : Int) > availableTokens then
                let keepChars : Int := (availableTokens - 200) * 3
                let truncatedContent := jsSliceTo c keepChars ++ oversizeNotice inputTokens
                some (archive ++ [ui], [sys, ⟨ui.role, some truncatedContent⟩])
              else
                assembleFits tc (availableTokens - inputTokens) state sys ui archive
        | none => some (archive, sys :: hc)

/-- Errors the `afterIteration` hook can surface: a `TypeError` from counting
a `null` content, or a failure of the external summarizer call carrying the
underlying error. -/
inductive RunErr (ε : Type)
  | nullContent
  | summarizerFailed (e : ε)
deriving DecidableEq

/-- The prompt built by `generateSummary` (line 82).  A `null` content is
stringified to `"null"` by the template literal. -/
def summaryPrompt (msgs : List Message) : String :=
  "Summarize the following conversation concisely. Capture key details, decisions, and context that should be preserved:\n\n" ++
    String.intercalate "\n\n" (msgs.map fun m =>
      "[" ++ m.role.render ++ "]: " ++ (match m.content with | some c => c | none => "null")) ++
    "\n\nSummary:"

/-- `generateSummary` (lines 79-90).  `chat` models the injected
`model.chat`: it returns the response message or fails.  Without a model a
fixed placeholder is returned; otherwise the response content (`""` for
`null`) is trimmed. -/
def generateSummary {ε : Type} (chat : Option (List Message → Except ε Message))
    (msgs : List Message) : Except ε String :=
  match chat with
  | none => .ok "Summarized messages"
  | some chatFn =>
      (chatFn [⟨.system, some "You are a helpful assistant that summarizes conversations."⟩,
               ⟨.user, some (summaryPrompt msgs)⟩]).map
        fun resp => (resp.content.getD "").trim

/-- `mergeSummaries` (lines 92-96); the falsiness tests on the strings are
emptiness tests. -/
def mergeSummaries (oldSummary newSummary : String) : String :=
  if oldSummary.isEmpty then newSummary
  else if newSummary.isEmpty then oldSummary
  else "Prior Context: " ++ oldSummary ++ "\n\nRecent Developments: " ++ newSummary

/-- Start index of the summarization candidates (lines 304-307): skip the
system prompt, and also `messages[1]` when it is a system message whose
content starts with the previous-summary marker.  Reading `.startsWith` off a
`null` content is a `TypeError`. -/
def startIdx? {ε : Type} (msgs : List Message) : Except (RunErr ε) Nat :=
  match msgs[1]? with
  | some m =>
      if m.role = .system then
        match m.content with
        | some c => .ok (if c.startsWith "PREVIOUS CONVERSATION SUMMARY" then 2 else 1)
        | none => .error .nullContent
      else .ok 1
  | none => .ok 1

/-- The `afterIteration` hook (lines 295-346).  Inputs: the active-buffer
budget, the compaction threshold, the injected counter, whether a
conversation id is configured (it guards the archive append), the optional
summarizer model, the in-memory summary buffer, the History Archive contents
and the working message list.  On success it returns the new summary buffer,
archive and message list; on failure nothing at all is committed: the summary
merge, the archive append and the message rewrite all sit after the
summarizer call in the source. -/
def afterIteration {ε : Type} (abt threshold : Nat) (tc : String → Nat)
    (convId : Bool) (chat : Option (List Message → Except ε Message))
    (summaryBuffer : String) (archive : List Message) (messages : List Message) :
    Except (RunErr ε) (String × List Message × List Message) :=
  match calculateTotalTokens? messages tc with
  | none => .error .nullContent
  | some totalTokens =>
      if totalTokens > threshold then
        (startIdx? (ε := ε) messages).bind fun si =>
          match greedyPartition tc (abt : Int) (messages.drop si) with
          | none => .error .nullContent
          | some (toKeep, toSummarize) =>
              if toSummarize.isEmpty then .ok (summaryBuffer, archive, messages)
              else
                ((generateSummary chat toSummarize).mapError RunErr.summarizerFailed).bind
                  fun newSummary =>
                    let merged := mergeSummaries summaryBuffer newSummary
                    let archive' := if convId then archive ++ toSummarize else archive
                    .ok (merged, archive',
                         messages.take 1 ++ [mkSummaryMessage merged] ++ toKeep)
      else .ok (summaryBuffer, archive, messages)

/-- The filter predicate of `searchHistory` (line 68):
`msg.content && msg.content.toLowerCase().includes(queryLower)` — a truthy
(non-null, non-empty) content that contains the lowercased query. -/
def searchPred (queryLower : String) (m : Message) : Bool :=
  match m.content with
  | some c => !c.isEmpty && jsIncludes (jsToLower c) queryLower
  | none => false

/-- `searchHistory` (lines 60-72) over the archived history list. -/
def searchHistory (history : List Message) (query : String) : List Message :=
  history.filter (searchPred (jsToLower query))

/-- Per-entry rendering in `recall_memory`'s loop body (lines 139-145): the
content is individually capped at 3000 characters, a cut entry carries the
explicit marker with the original length. -/
def renderEntry (m : Message) : String :=
  let raw := m.content.getD ""
  let content :=
    if raw.length > 3000 then
      String.mk (raw.data.take 3000) ++ "\n... [Content Truncated, original length: " ++
        toString raw.length ++ " chars]"
    else raw
  "\n---\n[" ++ m.role.render ++ "]: " ++ content

/-- The accumulation loop of `recall_memory` (lines 135-154): returns the
output built so far and whether the loop broke on the total size limit. -/
def recallLoop : List Message → String → Nat → String × Bool
  | [], output, _ => (output, false)
  | m :: rest, output, currentLength =>
      let entry := renderEntry m
      if currentLength + entry.length > 12000 then (output, true)
      else recallLoop rest (output ++ entry) (currentLength + entry.length)

/-- Closing warning appended when the output was cut short (line 157). -/
def recallWarning (query : String) : String :=
  "\n\n[System Warning]: Output truncated because it exceeds the size limit. Please refine your query \"" ++
    query ++ "\" to be more specific (e.g., add date, file name, or more keywords)."

/-- `recall_memory`'s `execute` (lines 124-161). -/
def recallExecute (convId : Bool) (history : List Message) (query : String) : String :=
  if convId = false then "No conversation ID configured, cannot search history."
  else
    let results := searchHistory history query
    if results.isEmpty then "No matching messages found in history."
    else
      let header := "Found " ++ toString results.length ++ " matches in history:\n"
      let p := recallLoop results header header.length
      if p.2 then p.1 ++ recallWarning query else p.1

/-! ### Helper lemmas: token totals -/

@[simp] lemma tokenCost?_some (tc : String → Nat) (c : String) :
    tokenCost? tc (some c) = some (tc c) := rfl

@[simp] lemma tokenCost?_none (tc : String → Nat) :
    tokenCost? tc none = none := rfl

lemma sumCosts?_cons (tc : String → Nat) (m : Message) (l : List Message) :
    sumCosts? tc (m :: l) =
      (tokenCost? tc m.content).bind fun t => (sumCosts? tc l).map fun r => t + r := rfl

lemma calcTT_foldl_none (tc : String → Nat) (l : List Message) :
    l.foldl (fun sum m => sum.bind fun a => (tokenCost? tc m.content).map fun t => a + t)
      none = none := by
  induction l with
  | nil => rfl
  | cons m rest ih => simpa using ih

lemma calcTT_foldl_go (tc : String → Nat) (l : List Message) :
    ∀ a : Nat,
      l.foldl (fun sum m => sum.bind fun a => (tokenCost? tc m.content).map fun t => a + t)
        (some a) = (sumCosts? tc l).map fun r => a + r := by
  induction l with
  | nil => intro a; simp [sumCosts?]
  | cons m rest ih =>
      intro a
      rcases hm : m.content with _ | c
      · simp only [List.foldl_cons, hm, tokenCost?_none, Option.map_none', Option.some_bind,
          calcTT_foldl_none]
        simp [sumCosts?_cons, hm]
      · simp only [List.foldl_cons, hm, tokenCost?_some, Option.map_some', Option.some_bind]
        rw [ih (a + tc c)]
        simp only [sumCosts?_cons, hm, tokenCost?_some, Option.some_bind]
        cases hr : sumCosts? tc rest with
        | none => simp
        | some r => simp [Nat.add_assoc]

/-- `calculateTotalTokens?` agrees with the structural sum. -/
lemma calculateTotalTokens?_eq_sumCosts? (msgs : List Message) (tc : String → Nat) :
    calculateTotalTokens? msgs tc = sumCosts? tc msgs := by
  unfold calculateTotalTokens?
  rw [calcTT_foldl_go]
  cases sumCosts? tc msgs <;> simp

lemma sumCosts?_append {tc : String → Nat} {l₁ l₂ : List Message} {a b : Nat}
    (h₁ : sumCosts? tc l₁ = some a) (h₂ : sumCosts? tc l₂ = some b) :
    sumCosts? tc (l₁ ++ l₂) = some (a + b) := by
  induction l₁ generalizing a with
  | nil =>
      simp only [sumCosts?, Option.some.injEq] at h₁
      simp [← h₁, h₂]
  | cons m rest ih =>
      rcases hm : m.content with _ | c
      · rw [sumCosts?, hm] at h₁; simp [tokenCost?] at h₁
      · rw [sumCosts?, hm] at h₁
        simp only [tokenCost?, Option.map_some', Option.some_bind] at h₁
        cases hr : sumCosts? tc rest with
        | none => rw [hr] at h₁; simp at h₁
        | some r =>
            rw [hr] at h₁
            simp only [Option.map_some', Option.some.injEq] at h₁
            rw [List.cons_append, sumCosts?, hm]
            simp only [tokenCost?, Option.map_some', Option.some_bind, ih hr]
            simp [← h₁, Nat.add_assoc]

/-! ### Helper lemmas: the greedy newest-first selection -/

lemma greedyAux_spec (tc : String → Nat) (b : Int) (l : List Message) :
    ∀ (used : Nat) (keep fold K F : List Message),
      greedyAux tc b l used keep fold = some (K, F) →
      ∃ K₀ F₀ s,
        K = K₀ ++ keep ∧ F = F₀ ++ fold ∧
        K₀.Sublist l.reverse ∧ F₀.Sublist l.reverse ∧
        (l.reverse).Perm (K₀ ++ F₀) ∧
        sumCosts? tc K₀ = some s ∧
        (((used : Int) + s ≤ b) ∨ K₀ = []) := by
  induction l with
  | nil =>
      intro used keep fold K F h
      simp only [greedyAux, Option.some.injEq, Prod.mk.injEq] at h
      exact ⟨[], [], 0, by simp [h.1], by simp [h.2], by simp, by simp, by simp, rfl,
        Or.inr rfl⟩
  | cons m rest ih =>
      intro used keep fold K F h
      rcases hm : m.content with _ | c
      · rw [greedyAux, hm] at h; simp [tokenCost?] at h
      · rw [greedyAux, hm] at h
        simp only [tokenCost?, Option.map_some', Option.some_bind] at h
        by_cases hle : ((used + tc c : Nat) : Int) ≤ b
        · rw [if_pos hle] at h
          obtain ⟨K₀, F₀, s, hK, hF, hKs, hFs, hperm, hsum, hcond⟩ :=
            ih (used + tc c) (m :: keep) fold K F h
          have hsm : sumCosts? tc [m] = some (tc c) := by
            simp [sumCosts?, tokenCost?, hm]
          refine ⟨K₀ ++ [m], F₀, s + tc c, ?_, hF, ?_, ?_, ?_, ?_, ?_⟩
          · rw [hK]; simp
          · rw [List.reverse_cons]
            exact hKs.append (List.Sublist.refl [m])
          · rw [List.reverse_cons]
            exact hFs.trans (List.sublist_append_left _ _)
          · rw [List.reverse_cons]
            have p1 : (rest.reverse ++ [m]).Perm ((K₀ ++ F₀) ++ [m]) := hperm.append_right [m]
            have p2 : ((K₀ ++ F₀) ++ [m]).Perm ((K₀ ++ [m]) ++ F₀) := by
              rw [List.append_assoc, List.append_assoc]
              exact List.Perm.append_left K₀ List.perm_append_comm
            exact p1.trans p2
          · exact sumCosts?_append hsum hsm
          · left
            rcases hcond with hc1 | hc2
            · omega
            · subst hc2
              simp only [sumCosts?, Option.some.injEq] at hsum
              omega
        · rw [if_neg hle] at h
          obtain ⟨K₀, F₀, s, hK, hF, hKs, hFs, hperm, hsum, hcond⟩ :=
            ih used keep (m :: fold) K F h
          refine ⟨K₀, F₀ ++ [m], s, hK, ?_, ?_, ?_, ?_, hsum, hcond⟩
          · rw [hF]; simp
          · rw [List.reverse_cons]
            exact hKs.trans (List.sublist_append_left _ _)
          · rw [List.reverse_cons]
            exact hFs.append (List.Sublist.refl [m])
          · rw [List.reverse_cons]
            have p1 : (rest.reverse ++ [m]).Perm ((K₀ ++ F₀) ++ [m]) := hperm.append_right [m]
            rw [List.append_assoc] at p1
            exact p1

/-- The greedy partition: both halves are sublists of the candidates (so each
preserves chronological order and consists of unmodified messages), together
they are a permutation of the candidates (full coverage, no duplication), and
the kept half's total cost stays within the budget. -/
lemma greedyPartition_spec {tc : String → Nat} {b : Int} {cands K F : List Message}
    (h : greedyPartition tc b cands = some (K, F)) :
    K.Sublist cands ∧ F.Sublist cands ∧ cands.Perm (K ++ F) ∧
      ∃ s, sumCosts? tc K = some s ∧ ((s : Int) ≤ b ∨ K = []) := by
  obtain ⟨K₀, F₀, s, hK, hF, hKs, hFs, hperm, hsum, hcond⟩ :=
    greedyAux_spec tc b cands.reverse 0 [] [] K F h
  rw [List.append_nil] at hK hF
  subst hK; subst hF
  rw [List.reverse_reverse] at hKs hFs hperm
  refine ⟨hKs, hFs, hperm, s, hsum, ?_⟩
  rcases hcond with hc | hc
  · left; omega
  · right; exact hc

lemma fittingHistory_spec {tc : String → Nat} {b : Int} {cands fits : List Message}
    (h : fittingHistory tc b cands = some fits) :
    fits.Sublist cands ∧ ∃ s, sumCosts? tc fits = some s ∧ ((s : Int) ≤ b ∨ fits = []) := by
  unfold fittingHistory at h
  cases hp : greedyPartition tc b cands with
  | none => rw [hp] at h; simp at h
  | some p =>
      rw [hp] at h
      simp only [Option.map_some', Option.some.injEq] at h
      obtain ⟨h1, h2, h3, h4⟩ := greedyPartition_spec (K := p.1) (F := p.2) (by simpa using hp)
      subst h
      exact ⟨h1, h4⟩

/-! ### Helper lemmas: summary extraction in the fits branch -/

lemma splitSummary_eq (state : Option StoredState) :
    splitSummary state (historyCandidates state) =
      match state with
      | none => (none, [])
      | some st =>
          if st.summary.isEmpty then (none, st.recentMessages)
          else (some (mkSummaryMessage st.summary), st.recentMessages) := by
  cases state with
  | none => rfl
  | some st =>
      by_cases hs : st.summary.isEmpty
      · simp only [historyCandidates, if_pos hs]
        cases hr : st.recentMessages with
        | nil => simp [splitSummary]
        | cons r rs => simp [splitSummary, hs]
      · simp only [historyCandidates, if_neg hs, List.cons_append, List.nil_append]
        simp [splitSummary, hs, mkSummaryMessage]

lemma assembleFits_some {tc : String → Nat} {hb : Int} {state : Option StoredState}
    {sys ui : Message} {archive arch' out : List Message}
    (h : assembleFits tc hb state sys ui archive = some (arch', out)) :
    arch' = archive ∧
    ∃ smKept hb₂ fits,
      summaryBudgetStep tc hb (splitSummary state (historyCandidates state)).1 =
        some (smKept, hb₂) ∧
      fittingHistory tc hb₂ (splitSummary state (historyCandidates state)).2 = some fits ∧
      out = sys :: (smKept.toList ++ fits ++ [ui]) := by
  unfold assembleFits at h
  cases hdec : summaryBudgetStep tc hb (splitSummary state (historyCandidates state)).1 with
  | none => rw [hdec] at h; simp at h
  | some dec =>
      rw [hdec] at h
      simp only [Option.some_bind] at h
      cases hfits : fittingHistory tc dec.2 (splitSummary state (historyCandidates state)).2 with
      | none => rw [hfits] at h; simp at h
      | some fits =>
          rw [hfits] at h
          simp only [Option.map_some', Option.some.injEq, Prod.mk.injEq] at h
          exact ⟨h.1.symm, dec.1, dec.2, fits, by simp [hdec], hfits, h.2.symm⟩

/-- In the fits branch (`inputTokens ≤ availableTokens`), `beforeRun` is the
fits-branch assembly with history budget `abt - cost(system) - cost(turn)`. -/
lemma beforeRun_fits_eq {abt : Nat} {tc : String → Nat} {state : Option StoredState}
    {archive : List Message} {sys : Message} {rest : List Message} {ui : Message}
    {c s : String} (hui : rest.getLast? = some ui) (hc : ui.content = some c)
    (hs : sys.content = some s)
    (hfit : ((tc c : Nat) : Int) ≤ (abt : Int) - (tc s : Nat)) :
    beforeRun abt tc state archive (sys :: rest) =
      assembleFits tc ((abt : Int) - (tc s : Nat) - (tc c : Nat)) state sys ui archive := by
  unfold beforeRun
  simp only [hui, hs, hc, tokenCost?, Option.map_some', Option.some_bind]
  rw [if_neg (by omega)]

/-- In the oversized branch (`inputTokens > availableTokens`), `beforeRun`
archives the full turn and emits the two-message truncated list. -/
lemma beforeRun_oversize_eq {abt : Nat} {tc : String → Nat} {state : Option StoredState}
    {archive : List Message} {sys : Message} {rest : List Message} {ui : Message}
    {c s : String} (hui : rest.getLast? = some ui) (hc : ui.content = some c)
    (hs : sys.content = some s)
    (hbig : (abt : Int) - (tc s : Nat) < ((tc c : Nat) : Int)) :
    beforeRun abt tc state archive (sys :: rest) =
      some (archive ++ [ui],
        [sys, ⟨ui.role,
          some (jsSliceTo c ((((abt : Int) - (tc s : Nat)) - 200) * 3) ++
            oversizeNotice (tc c))⟩]) := by
  unfold beforeRun
  simp only [hui, hs, hc, tokenCost?, Option.map_some', Option.some_bind]
  rw [if_pos (by omega)]

/-- Cost accounting of the summary decision: the kept part's cost plus the
remaining history budget stays within the incoming history budget, and a
non-negative budget stays non-negative. -/
lemma summaryBudgetStep_cost {tc : String → Nat} {hb : Int} {sm : Option Message}
    {kept : Option Message} {hb₂ : Int}
    (h : summaryBudgetStep tc hb sm = some (kept, hb₂)) :
    ∃ ksum, sumCosts? tc kept.toList = some ksum ∧
      (ksum : Int) + hb₂ ≤ hb ∧ (0 ≤ hb → 0 ≤ hb₂) := by
  cases sm with
  | none =>
      simp only [summaryBudgetStep, Option.some.injEq, Prod.mk.injEq] at h
      obtain ⟨h1, h2⟩ := h
      subst h1; subst h2
      exact ⟨0, rfl, by omega, fun h0 => h0⟩
  | some m =>
      rcases hmc : m.content with _ | mc
      · rw [summaryBudgetStep, hmc] at h; simp at h
      · rw [summaryBudgetStep, hmc] at h
        simp only [tokenCost?_some, Option.map_some', Option.some.injEq] at h
        by_cases hle : ((tc mc : Nat) : Int) ≤ hb
        · rw [if_pos hle, Prod.mk.injEq] at h
          obtain ⟨h1, h2⟩ := h
          subst h1; subst h2
          refine ⟨tc mc, by simp [sumCosts?, tokenCost?, hmc], by omega, fun h0 => by omega⟩
        · rw [if_neg hle, Prod.mk.injEq] at h
          obtain ⟨h1, h2⟩ := h
          subst h1; subst h2
          exact ⟨0, rfl, by omega, fun h0 => h0⟩

/-! ### Claim C6 -/

/-- Claim C6: for every non-empty old summary and non-empty new summary, the
merged running summary is the two-part labelled concatenation, hence it
textually contains the entire previous summary (introduced by the label
`Prior Context: `) and the entire newly generated summary (introduced by the
distinct label `Recent Developments: `).  Since every compaction passes the
whole previous buffer through this merge, after any number of compactions the
running summary still contains the prior folded content — merging never
discards the previous summary. -/
theorem mergeSummaries_preserves_both (o n : String)
    (ho : o.isEmpty = false) (hn : n.isEmpty = false) :
    mergeSummaries o n = "Prior Context: " ++ o ++ "\n\nRecent Developments: " ++ n ∧
    (∃ p q, mergeSummaries o n = p ++ o ++ q) ∧
    (∃ p, mergeSummaries o n = p ++ n) := by
  have he : mergeSummaries o n =
      "Prior Context: " ++ o ++ "\n\nRecent Developments: " ++ n := by
    unfold mergeSummaries
    rw [if_neg (by simp [ho]), if_neg (by simp [hn])]
  refine ⟨he, ⟨"Prior Context: ", "\n\nRecent Developments: " ++ n, ?_⟩,
    ⟨"Prior Context: " ++ o ++ "\n\nRecent Developments: ", he⟩⟩
  rw [he, String.append_assoc]

/-- Witness for C6 at concrete non-empty summaries. -/
theorem mergeSummaries_preserves_both_witness :
    ("alpha" : String).isEmpty = false ∧ ("beta" : String).isEmpty = false ∧
    (mergeSummaries "alpha" "beta" =
        "Prior Context: " ++ "alpha" ++ "\n\nRecent Developments: " ++ "beta" ∧
      (∃ p q, mergeSummaries "alpha" "beta" = p ++ "alpha" ++ q) ∧
      (∃ p, mergeSummaries "alpha" "beta" = p ++ "beta")) :=
  ⟨rfl, rfl, mergeSummaries_preserves_both "alpha" "beta" rfl rfl⟩

/-! ### Claim C8 -/

/-- Claim C8 counterexample: an archived entry whose content is the empty
string does case-insensitively contain the empty query as a substring, yet
`searchHistory` returns the empty list for it — the source's truthiness test
`msg.content &&` rejects the empty string, so the result is not exactly the
set of entries whose content contains the query. -/
theorem searchHistory_exactness_counterexample :
    (∃ c, (Message.mk Role.user (some "")).content = some c ∧
        jsIncludes (jsToLower c) (jsToLower "") = true) ∧
    searchHistory [Message.mk Role.user (some "")] "" = [] :=
  ⟨⟨"", rfl, by decide⟩, by decide⟩

/-- Claim C8 (amended): `searchHistory` returns exactly the archived entries
whose content is truthy — non-null AND non-empty — and case-insensitively
contains the query as a substring; the result is a sublist of the archive
(original chronological order, no reordering) and multiplicities are
preserved (no deduplication). -/
theorem searchHistory_spec (history : List Message) (query : String) :
    (searchHistory history query).Sublist history ∧
    (∀ m : Message, m ∈ searchHistory history query ↔
        m ∈ history ∧ searchPred (jsToLower query) m = true) ∧
    (∀ m : Message, (searchHistory history query).count m =
        if searchPred (jsToLower query) m then history.count m else 0) ∧
    (∀ m : Message, searchPred (jsToLower query) m = true ↔
        ∃ c, m.content = some c ∧ c.isEmpty = false ∧
          jsIncludes (jsToLower c) (jsToLower query) = true) := by
  refine ⟨List.filter_sublist _, fun m => List.mem_filter, fun m => ?_, fun m => ?_⟩
  · by_cases hp : searchPred (jsToLower query) m
    · rw [if_pos hp]
      exact List.count_filter hp
    · rw [if_neg hp]
      refine List.count_eq_zero.mpr ?_
      intro hmem
      exact hp ((List.mem_filter.mp hmem).2)
  · constructor
    · intro h
      rcases hm : m.content with _ | c
      · rw [searchPred, hm] at h; cases h
      · rw [searchPred, hm] at h
        simp only [Bool.and_eq_true, Bool.not_eq_true'] at h
        exact ⟨c, rfl, h.1, h.2⟩
    · rintro ⟨c, hc, h1, h2⟩
      rw [searchPred, hc]
      simp [h1, h2]

/-! ### Claim C10 -/

/-- Claim C10: the token-cost computations apply the injected counter directly
to the message content, whose type admits `null` for tool-call-only turns.
They are total whenever every counted message has non-null content, and the
error branch is reachable: a tool message with `null` content sends
`calculateTotalTokens?` — and `beforeRun`, which counts the user turn by the
same direct application — into the error branch under the default
`ceil(length/4)` estimator. -/
theorem tokenCounting_null_content_precondition :
    (∀ (msgs : List Message) (tc : String → Nat),
        (∀ m ∈ msgs, m.content.isSome = true) →
        (calculateTotalTokens? msgs tc).isSome = true) ∧
    calculateTotalTokens? [Message.mk Role.tool none] defaultTokenCounter = none ∧
    beforeRun 4000 defaultTokenCounter none []
      [Message.mk Role.system (some "You are a helpful agent."),
       Message.mk Role.tool none] = none := by
  refine ⟨?_, by decide, by decide⟩
  intro msgs tc
  rw [calculateTotalTokens?_eq_sumCosts?]
  induction msgs with
  | nil => intro _; rfl
  | cons m rest ih =>
      intro h
      rcases hmc : m.content with _ | c
      · have := h m (by simp)
        rw [hmc] at this; cases this
      · rw [sumCosts?_cons, hmc]
        simp only [tokenCost?_some, Option.some_bind]
        have hrest := ih (fun m' hm' => h m' (List.mem_cons_of_mem m hm'))
        cases hs : sumCosts? tc rest with
        | none => rw [hs] at hrest; cases hrest
        | some r => simp

/-- Witness for C10's totality direction at a concrete all-non-null list. -/
theorem tokenCounting_null_content_precondition_witness :
    (∀ m ∈ [Message.mk Role.user (some "hello"), Message.mk Role.assistant (some "hi")],
        m.content.isSome = true) ∧
    (calculateTotalTokens?
        [Message.mk Role.user (some "hello"), Message.mk Role.assistant (some "hi")]
        defaultTokenCounter).isSome = true :=
  ⟨by decide,
   tokenCounting_null_content_precondition.1
     [Message.mk Role.user (some "hello"), Message.mk Role.assistant (some "hi")]
     defaultTokenCounter (by decide)⟩

/-! ### Claim C2 -/

/-- Claim C2: if the new user turn's estimated cost alone exceeds the
available budget (`activeBufferTokens` minus the system-prompt cost), then
`beforeRun` first appends the full user turn verbatim to the History Archive
and emits exactly the two-element list `[system prompt, truncated user turn]`
— no summary and no recent history — where the truncated content carries the
notice stating the original size in tokens and that the full text was
archived to history. -/
theorem beforeRun_oversized_turn (abt : Nat) (tc : String → Nat)
    (state : Option StoredState) (archive : List Message) (sys : Message)
    (rest : List Message) (ui : Message) (c s : String)
    (hui : rest.getLast? = some ui) (hc : ui.content = some c)
    (hs : sys.content = some s)
    (hbig : (abt : Int) - (tc s : Nat) < ((tc c : Nat) : Int)) :
    beforeRun abt tc state archive (sys :: rest) =
      some (archive ++ [ui],
        [sys, ⟨ui.role,
          some (jsSliceTo c ((((abt : Int) - (tc s : Nat)) - 200) * 3) ++
            oversizeNotice (tc c))⟩]) ∧
    ∃ p q, jsSliceTo c ((((abt : Int) - (tc s : Nat)) - 200) * 3) ++
        oversizeNotice (tc c) = p ++ toString (tc c) ++ q := by
  refine ⟨beforeRun_oversize_eq hui hc hs hbig,
    ⟨jsSliceTo c ((((abt : Int) - (tc s : Nat)) - 200) * 3) ++
        "\n... [SYSTEM WARNING: This input was too long (",
      " tokens) and has been truncated to fit the context window. The full content has been archived to history.]",
      ?_⟩⟩
  unfold oversizeNotice
  simp only [String.append_assoc]

/-- The 2000-character oversized turn content of the witness. -/
def oversizedTurnContent : String := String.mk (List.replicate 2000 'b')

/-- Witness for C2: `activeBufferTokens = 100`, a 13-character system prompt
and a 2000-character user turn whose 500-token cost exceeds the 96-token
available budget. -/
theorem beforeRun_oversized_turn_witness :
    ((100 : Int) - (defaultTokenCounter "SYSTEMPROMPTx" : Nat) <
        ((defaultTokenCounter oversizedTurnContent : Nat) : Int)) ∧
    (beforeRun 100 defaultTokenCounter none []
        [Message.mk Role.system (some "SYSTEMPROMPTx"),
         Message.mk Role.user (some oversizedTurnContent)] =
      some ([] ++ [Message.mk Role.user (some oversizedTurnContent)],
        [Message.mk Role.system (some "SYSTEMPROMPTx"),
         ⟨Role.user,
          some (jsSliceTo oversizedTurnContent
              ((((100 : Int) - (defaultTokenCounter "SYSTEMPROMPTx" : Nat)) - 200) * 3) ++
            oversizeNotice (defaultTokenCounter oversizedTurnContent))⟩]) ∧
      ∃ p q, jsSliceTo oversizedTurnContent
          ((((100 : Int) - (defaultTokenCounter "SYSTEMPROMPTx" : Nat)) - 200) * 3) ++
          oversizeNotice (defaultTokenCounter oversizedTurnContent) =
        p ++ toString (defaultTokenCounter oversizedTurnContent) ++ q) := by
  have hlen : oversizedTurnContent.length = 2000 := by
    show (List.replicate 2000 'b').length = 2000
    exact List.length_replicate 2000 'b'
  have hbig : (100 : Int) - (defaultTokenCounter "SYSTEMPROMPTx" : Nat) <
      ((defaultTokenCounter oversizedTurnContent : Nat) : Int) := by
    have h2 : defaultTokenCounter oversizedTurnContent = 500 := by
      rw [defaultTokenCounter, hlen]
    rw [h2]
    decide
  exact ⟨hbig,
    beforeRun_oversized_turn 100 defaultTokenCounter none []
      (Message.mk Role.system (some "SYSTEMPROMPTx")) _
      (Message.mk Role.user (some oversizedTurnContent)) oversizedTurnContent
      "SYSTEMPROMPTx" rfl rfl rfl hbig⟩

/-! ### Claim C7 -/

/-- Claim C7: when the user turn fits within the available budget, the
assembled output is exactly `[system prompt, summary (if kept), kept recent
messages oldest to newest, user turn last]`: the kept history is the
newest-first greedy selection against the remaining history budget, it is a
sublist of the recent candidates — so the kept messages are unmodified (each
non-fitting message is dropped whole, never truncated) and appear in their
original chronological order — and its total cost stays within the remaining
history budget. -/
theorem beforeRun_fits_assembly (abt : Nat) (tc : String → Nat)
    (state : Option StoredState) (archive : List Message) (sys : Message)
    (rest : List Message) (ui : Message) (c s : String) (arch' out : List Message)
    (hrun : beforeRun abt tc state archive (sys :: rest) = some (arch', out))
    (hui : rest.getLast? = some ui) (hc : ui.content = some c)
    (hs : sys.content = some s)
    (hfit : ((tc c : Nat) : Int) ≤ (abt : Int) - (tc s : Nat)) :
    arch' = archive ∧
    ∃ smKept hb₂ fits,
      summaryBudgetStep tc ((abt : Int) - (tc s : Nat) - (tc c : Nat))
          (splitSummary state (historyCandidates state)).1 = some (smKept, hb₂) ∧
      fittingHistory tc hb₂ (splitSummary state (historyCandidates state)).2 = some fits ∧
      out = sys :: (smKept.toList ++ fits ++ [ui]) ∧
      fits.Sublist (splitSummary state (historyCandidates state)).2 ∧
      ∃ fsum, sumCosts? tc fits = some fsum ∧ ((fsum : Int) ≤ hb₂ ∨ fits = []) := by
  rw [beforeRun_fits_eq hui hc hs hfit] at hrun
  obtain ⟨harch, smKept, hb₂, fits, hdec, hfits, hout⟩ := assembleFits_some hrun
  obtain ⟨hsub, fsum, hfsum, hbound⟩ := fittingHistory_spec hfits
  exact ⟨harch, smKept, hb₂, fits, hdec, hfits, hout, hsub, fsum, hfsum, hbound⟩

/-- Witness for C7 at a concrete fitting turn with stored summary and one
recent message. -/
theorem beforeRun_fits_assembly_witness :
    (beforeRun 100 defaultTokenCounter
        (some ⟨"sss", [Message.mk Role.user (some "rrrrrrrr")]⟩) []
        [Message.mk Role.system (some "SYSTEMPROMPT"),
         Message.mk Role.user (some "uuuu")] =
      some ([], [Message.mk Role.system (some "SYSTEMPROMPT"),
        mkSummaryMessage "sss", Message.mk Role.user (some "rrrrrrrr"),
        Message.mk Role.user (some "uuuu")])) ∧
    ((defaultTokenCounter "uuuu" : Nat) : Int) ≤
      (100 : Int) - (defaultTokenCounter "SYSTEMPROMPT" : Nat) ∧
    (([] : List Message) = [] ∧
      ∃ smKept hb₂ fits,
        summaryBudgetStep defaultTokenCounter
            ((100 : Int) - (defaultTokenCounter "SYSTEMPROMPT" : Nat) -
              (defaultTokenCounter "uuuu" : Nat))
            (splitSummary (some ⟨"sss", [Message.mk Role.user (some "rrrrrrrr")]⟩)
              (historyCandidates
                (some ⟨"sss", [Message.mk Role.user (some "rrrrrrrr")]⟩))).1 =
          some (smKept, hb₂) ∧
        fittingHistory defaultTokenCounter hb₂
            (splitSummary (some ⟨"sss", [Message.mk Role.user (some "rrrrrrrr")]⟩)
              (historyCandidates
                (some ⟨"sss", [Message.mk Role.user (some "rrrrrrrr")]⟩))).2 =
          some fits ∧
        [Message.mk Role.system (some "SYSTEMPROMPT"), mkSummaryMessage "sss",
            Message.mk Role.user (some "rrrrrrrr"), Message.mk Role.user (some "uuuu")] =
          Message.mk Role.system (some "SYSTEMPROMPT") ::
            (smKept.toList ++ fits ++ [Message.mk Role.user (some "uuuu")]) ∧
        fits.Sublist
          (splitSummary (some ⟨"sss", [Message.mk Role.user (some "rrrrrrrr")]⟩)
            (historyCandidates
              (some ⟨"sss", [Message.mk Role.user (some "rrrrrrrr")]⟩))).2 ∧
        ∃ fsum, sumCosts? defaultTokenCounter fits = some fsum ∧
          ((fsum : Int) ≤ hb₂ ∨ fits = [])) :=
  ⟨by decide, by decide,
   beforeRun_fits_assembly 100 defaultTokenCounter
     (some ⟨"sss", [Message.mk Role.user (some "rrrrrrrr")]⟩) []
     (Message.mk Role.system (some "SYSTEMPROMPT"))
     [Message.mk Role.user (some "uuuu")]
     (Message.mk Role.user (some "uuuu")) "uuuu" "SYSTEMPROMPT" []
     [Message.mk Role.system (some "SYSTEMPROMPT"), mkSummaryMessage "sss",
      Message.mk Role.user (some "rrrrrrrr"), Message.mk Role.user (some "uuuu")]
     (by decide) rfl rfl rfl (by decide)⟩

/-! ### Claim C5 -/

/-- Claim C5: with a stored non-empty summary of cost `S` and history budget
`B` (the available budget after deducting the user turn's cost): if `S ≤ B`
the summary message is included right after the system prompt and `S` is
deducted from the budget available for recent messages; if `S > B` the
summary is dropped entirely — never truncated — and the assembled output is
the system prompt, the fitting recent messages and the user turn only. -/
theorem beforeRun_summary_priority (abt : Nat) (tc : String → Nat)
    (st : StoredState) (archive : List Message) (sys : Message)
    (rest : List Message) (ui : Message) (c s : String) (arch' out : List Message)
    (hrun : beforeRun abt tc (some st) archive (sys :: rest) = some (arch', out))
    (hui : rest.getLast? = some ui) (hc : ui.content = some c)
    (hs : sys.content = some s)
    (hfit : ((tc c : Nat) : Int) ≤ (abt : Int) - (tc s : Nat))
    (hsum : st.summary.isEmpty = false) :
    (((tc ("PREVIOUS CONVERSATION SUMMARY:\n" ++ st.summary) : Nat) : Int) ≤
        (abt : Int) - (tc s : Nat) - (tc c : Nat) →
      ∃ fits, fittingHistory tc
          ((abt : Int) - (tc s : Nat) - (tc c : Nat) -
            (tc ("PREVIOUS CONVERSATION SUMMARY:\n" ++ st.summary) : Nat))
          st.recentMessages = some fits ∧
        out = sys :: mkSummaryMessage st.summary :: (fits ++ [ui])) ∧
    ((abt : Int) - (tc s : Nat) - (tc c : Nat) <
        ((tc ("PREVIOUS CONVERSATION SUMMARY:\n" ++ st.summary) : Nat) : Int) →
      ∃ fits, fittingHistory tc ((abt : Int) - (tc s : Nat) - (tc c : Nat))
          st.recentMessages = some fits ∧
        out = sys :: (fits ++ [ui])) := by
  rw [beforeRun_fits_eq hui hc hs hfit] at hrun
  obtain ⟨harch, smKept, hb₂, fits, hdec, hfits, hout⟩ := assembleFits_some hrun
  have hsplit : splitSummary (some st) (historyCandidates (some st)) =
      (some (mkSummaryMessage st.summary), st.recentMessages) := by
    rw [splitSummary_eq]
    simp [hsum]
  rw [hsplit] at hdec hfits
  rw [summaryBudgetStep] at hdec
  simp only [mkSummaryMessage, tokenCost?_some, Option.map_some', Option.some.injEq] at hdec
  by_cases hSB : ((tc ("PREVIOUS CONVERSATION SUMMARY:\n" ++ st.summary) : Nat) : Int) ≤
      (abt : Int) - (tc s : Nat) - (tc c : Nat)
  · rw [if_pos hSB, Prod.mk.injEq] at hdec
    obtain ⟨h1, h2⟩ := hdec
    constructor
    · intro _
      refine ⟨fits, by rw [← h2] at hfits; exact hfits, ?_⟩
      rw [hout, ← h1]
      simp [mkSummaryMessage]
    · intro hBS
      exact absurd hSB (not_le.mpr hBS)
  · rw [if_neg hSB, Prod.mk.injEq] at hdec
    obtain ⟨h1, h2⟩ := hdec
    constructor
    · intro hle
      exact absurd hle hSB
    · intro _
      refine ⟨fits, by rw [← h2] at hfits; exact hfits, ?_⟩
      rw [hout, ← h1]
      simp

/-- Witness for C5 at a concrete input where the summary fits the history
budget. -/
theorem beforeRun_summary_priority_witness :
    (beforeRun 20 defaultTokenCounter
        (some ⟨"s", [Message.mk Role.user (some "rrrr")]⟩) []
        [Message.mk Role.system (some "ssssssss"),
         Message.mk Role.user (some "uuuu")] =
      some ([], [Message.mk Role.system (some "ssssssss"),
        mkSummaryMessage "s", Message.mk Role.user (some "rrrr"),
        Message.mk Role.user (some "uuuu")])) ∧
    ("s" : String).isEmpty = false ∧
    ((((defaultTokenCounter ("PREVIOUS CONVERSATION SUMMARY:\n" ++ "s") : Nat) : Int) ≤
        (20 : Int) - (defaultTokenCounter "ssssssss" : Nat) -
          (defaultTokenCounter "uuuu" : Nat) →
      ∃ fits, fittingHistory defaultTokenCounter
          ((20 : Int) - (defaultTokenCounter "ssssssss" : Nat) -
            (defaultTokenCounter "uuuu" : Nat) -
            (defaultTokenCounter ("PREVIOUS CONVERSATION SUMMARY:\n" ++ "s") : Nat))
          [Message.mk Role.user (some "rrrr")] = some fits ∧
        [Message.mk Role.system (some "ssssssss"), mkSummaryMessage "s",
            Message.mk Role.user (some "rrrr"), Message.mk Role.user (some "uuuu")] =
          Message.mk Role.system (some "ssssssss") :: mkSummaryMessage "s" ::
            (fits ++ [Message.mk Role.user (some "uuuu")])) ∧
    ((20 : Int) - (defaultTokenCounter "ssssssss" : Nat) -
          (defaultTokenCounter "uuuu" : Nat) <
        ((defaultTokenCounter ("PREVIOUS CONVERSATION SUMMARY:\n" ++ "s") : Nat) : Int) →
      ∃ fits, fittingHistory defaultTokenCounter
          ((20 : Int) - (defaultTokenCounter "ssssssss" : Nat) -
            (defaultTokenCounter "uuuu" : Nat))
          [Message.mk Role.user (some "rrrr")] = some fits ∧
        [Message.mk Role.system (some "ssssssss"), mkSummaryMessage "s",
            Message.mk Role.user (some "rrrr"), Message.mk Role.user (some "uuuu")] =
          Message.mk Role.system (some "ssssssss") ::
            (fits ++ [Message.mk Role.user (some "uuuu")]))) :=
  ⟨by decide, rfl,
   beforeRun_summary_priority 20 defaultTokenCounter
     ⟨"s", [Message.mk Role.user (some "rrrr")]⟩ []
     (Message.mk Role.system (some "ssssssss"))
     [Message.mk Role.user (some "uuuu")]
     (Message.mk Role.user (some "uuuu")) "uuuu" "ssssssss" []
     [Message.mk Role.system (some "ssssssss"), mkSummaryMessage "s",
      Message.mk Role.user (some "rrrr"), Message.mk Role.user (some "uuuu")]
     (by decide) rfl rfl rfl (by decide) rfl⟩

/-! ### Claim C1 -/

/-- The 100-character history message content of the C1 counterexample. -/
def c1LongContent : String := String.mk (List.replicate 100 'a')

/-- Claim C1 counterexample: in the no-user-turn branch (`messages` holds
only the system prompt) `beforeRun` appends every history candidate with no
budget check, so the assembled list's total estimated cost, 28 tokens,
exceeds `activeBufferTokens + cost(systemPrompt)` = 10 + 3 tokens.  The
budget invariant therefore does not hold in every branch. -/
theorem beforeRun_budget_counterexample :
    beforeRun 10 defaultTokenCounter
        (some ⟨"", [Message.mk Role.user (some c1LongContent)]⟩) []
        [Message.mk Role.system (some "SYSTEMPROMPT")] =
      some ([], [Message.mk Role.system (some "SYSTEMPROMPT"),
        Message.mk Role.user (some c1LongContent)]) ∧
    calculateTotalTokens?
        [Message.mk Role.system (some "SYSTEMPROMPT"),
         Message.mk Role.user (some c1LongContent)] defaultTokenCounter = some 28 ∧
    ¬(28 ≤ 10 + defaultTokenCounter "SYSTEMPROMPT") :=
  ⟨by decide, by decide, by decide⟩

/-- Claim C1 (amended): the budget invariant holds on the branch where a user
turn is present and its cost fits the available budget: there the assembled
list's total estimated token cost is at most
`activeBufferTokens + cost(systemPrompt)`.  The invariant does not hold in
the no-user-turn branch, where the history candidates are appended with no
budget check (see the counterexample), and the oversized-turn truncation
branch bounds characters, not the injected counter's cost. -/
theorem beforeRun_budget_invariant_fits (abt : Nat) (tc : String → Nat)
    (state : Option StoredState) (archive : List Message) (sys : Message)
    (rest : List Message) (ui : Message) (c s : String) (arch' out : List Message)
    (hrun : beforeRun abt tc state archive (sys :: rest) = some (arch', out))
    (hui : rest.getLast? = some ui) (hc : ui.content = some c)
    (hs : sys.content = some s)
    (hfit : ((tc c : Nat) : Int) ≤ (abt : Int) - (tc s : Nat)) :
    ∃ total, calculateTotalTokens? out tc = some total ∧ total ≤ abt + tc s := by
  rw [beforeRun_fits_eq hui hc hs hfit] at hrun
  obtain ⟨harch, smKept, hb₂, fits, hdec, hfits, hout⟩ := assembleFits_some hrun
  obtain ⟨ksum, hksum, hkb, hpos⟩ := summaryBudgetStep_cost hdec
  obtain ⟨hsub, fsum, hfsum, hbound⟩ := fittingHistory_spec hfits
  have hui' : sumCosts? tc [ui] = some (tc c) := by simp [sumCosts?, hc]
  have h1 : sumCosts? tc (smKept.toList ++ fits) = some (ksum + fsum) :=
    sumCosts?_append hksum hfsum
  have h2 : sumCosts? tc ((smKept.toList ++ fits) ++ [ui]) = some (ksum + fsum + tc c) :=
    sumCosts?_append h1 hui'
  have h3 : sumCosts? tc out = some (tc s + (ksum + fsum + tc c)) := by
    rw [hout, sumCosts?_cons, hs]
    simp only [tokenCost?_some, Option.some_bind]
    rw [h2]
    simp
  have hB : (0 : Int) ≤ (abt : Int) - (tc s : Nat) - (tc c : Nat) := by omega
  have hb₂pos := hpos hB
  have hfsum' : (fsum : Int) ≤ hb₂ := by
    rcases hbound with h | h
    · exact h
    · subst h
      simp only [sumCosts?, Option.some.injEq] at hfsum
      omega
  refine ⟨tc s + (ksum + fsum + tc c),
    by rw [calculateTotalTokens?_eq_sumCosts?, h3], ?_⟩
  omega

/-- Witness for C1 (amended) at a concrete fitting turn. -/
theorem beforeRun_budget_invariant_fits_witness :
    (beforeRun 40 defaultTokenCounter
        (some ⟨"zz", [Message.mk Role.user (some "mmmm")]⟩) []
        [Message.mk Role.system (some "base"),
         Message.mk Role.user (some "qqqq")] =
      some ([], [Message.mk Role.system (some "base"),
        mkSummaryMessage "zz", Message.mk Role.user (some "mmmm"),
        Message.mk Role.user (some "qqqq")])) ∧
    ((defaultTokenCounter "qqqq" : Nat) : Int) ≤
      (40 : Int) - (defaultTokenCounter "base" : Nat) ∧
    ∃ total, calculateTotalTokens?
        [Message.mk Role.system (some "base"), mkSummaryMessage "zz",
         Message.mk Role.user (some "mmmm"), Message.mk Role.user (some "qqqq")]
        defaultTokenCounter = some total ∧
      total ≤ 40 + defaultTokenCounter "base" :=
  ⟨by decide, by decide,
   beforeRun_budget_invariant_fits 40 defaultTokenCounter
     (some ⟨"zz", [Message.mk Role.user (some "mmmm")]⟩) []
     (Message.mk Role.system (some "base"))
     [Message.mk Role.user (some "qqqq")]
     (Message.mk Role.user (some "qqqq")) "qqqq" "base" []
     [Message.mk Role.system (some "base"), mkSummaryMessage "zz",
      Message.mk Role.user (some "mmmm"), Message.mk Role.user (some "qqqq")]
     (by decide) rfl rfl rfl (by decide)⟩

/-! ### Claims C3 and C4: the compaction path of afterIteration -/

/-- On the compaction path (total above threshold, non-empty fold set),
`afterIteration` is the summarizer call followed by merge, archive append and
message rewrite. -/
lemma afterIteration_compact_eq {ε : Type} (abt threshold : Nat) (tc : String → Nat)
    (convId : Bool) (chat : Option (List Message → Except ε Message))
    (buffer : String) (archive : List Message) (messages : List Message)
    (total si : Nat) (toKeep toSummarize : List Message)
    (htot : calculateTotalTokens? messages tc = some total)
    (hgt : total > threshold)
    (hsi : startIdx? (ε := ε) messages = .ok si)
    (hpart : greedyPartition tc (abt : Int) (messages.drop si) = some (toKeep, toSummarize))
    (hne : toSummarize.isEmpty = false) :
    afterIteration abt threshold tc convId chat buffer archive messages =
      ((generateSummary chat toSummarize).mapError RunErr.summarizerFailed).bind
        fun newSummary =>
          .ok (mergeSummaries buffer newSummary,
               (if convId then archive ++ toSummarize else archive),
               messages.take 1 ++ [mkSummaryMessage (mergeSummaries buffer newSummary)] ++
                 toKeep) := by
  unfold afterIteration
  rw [htot]
  simp only [if_pos hgt, hsi]
  simp only [Except.bind]
  simp only [hpart, hne]
  simp

/-- Claim C4: if the external summarizer call fails during compaction, the
error propagates out of `afterIteration` as is (no silent fallback) and the
result carries no new state at all — the summary merge, the archive append
and the message rewrite all happen only after the summarizer call succeeds,
so neither the running summary buffer nor any persisted state is modified and
no partial summary is ever committed. -/
theorem afterIteration_summarizer_failure {ε : Type} (abt threshold : Nat)
    (tc : String → Nat) (convId : Bool)
    (chat : Option (List Message → Except ε Message))
    (buffer : String) (archive : List Message) (messages : List Message)
    (total si : Nat) (toKeep toSummarize : List Message) (e : ε)
    (htot : calculateTotalTokens? messages tc = some total)
    (hgt : total > threshold)
    (hsi : startIdx? (ε := ε) messages = .ok si)
    (hpart : greedyPartition tc (abt : Int) (messages.drop si) = some (toKeep, toSummarize))
    (hne : toSummarize.isEmpty = false)
    (hfail : generateSummary chat toSummarize = .error e) :
    afterIteration abt threshold tc convId chat buffer archive messages =
      .error (RunErr.summarizerFailed e) := by
  rw [afterIteration_compact_eq abt threshold tc convId chat buffer archive messages
    total si toKeep toSummarize htot hgt hsi hpart hne, hfail]
  rfl

/-- Witness for C4: a summarizer model that fails makes the whole hook fail
with that error. -/
theorem afterIteration_summarizer_failure_witness :
    (calculateTotalTokens?
        [Message.mk Role.system (some "ssss"), Message.mk Role.user (some "aaaaaaaa")]
        defaultTokenCounter = some 3) ∧
    (3 > 1) ∧
    (startIdx? (ε := Nat)
        [Message.mk Role.system (some "ssss"), Message.mk Role.user (some "aaaaaaaa")] =
      .ok 1) ∧
    (greedyPartition defaultTokenCounter ((1 : Nat) : Int)
        ([Message.mk Role.system (some "ssss"),
          Message.mk Role.user (some "aaaaaaaa")].drop 1) =
      some ([], [Message.mk Role.user (some "aaaaaaaa")])) ∧
    ([Message.mk Role.user (some "aaaaaaaa")].isEmpty = false) ∧
    (generateSummary (some fun _ => (Except.error 0 : Except Nat Message))
        [Message.mk Role.user (some "aaaaaaaa")] = .error 0) ∧
    afterIteration 1 1 defaultTokenCounter true
        (some fun _ => (Except.error 0 : Except Nat Message)) "" []
        [Message.mk Role.system (some "ssss"), Message.mk Role.user (some "aaaaaaaa")] =
      .error (RunErr.summarizerFailed 0) :=
  ⟨by decide, by decide, by decide, by decide, by decide, rfl,
   afterIteration_summarizer_failure 1 1 defaultTokenCounter true
     (some fun _ => (Except.error 0 : Except Nat Message)) "" []
     [Message.mk Role.system (some "ssss"), Message.mk Role.user (some "aaaaaaaa")]
     3 1 [] [Message.mk Role.user (some "aaaaaaaa")] 0
     (by decide) (by decide) (by decide) (by decide) (by decide) rfl⟩

/-- The 40-character middle message content of the C3 counterexample. -/
def c3MidContent : String := String.mk (List.replicate 40 'b')

/-- Claim C3 counterexample: with `activeBufferTokens = 2` and candidate
messages of costs 1, 10, 1 (oldest to newest), compaction folds only the
middle message and keeps both its older and its newer neighbour: the folded
message is NOT strictly older than everything kept, and `toFold`/`toKeep` is
not a prefix/suffix split of the candidates (there is a gap). -/
theorem afterIteration_partition_counterexample :
    afterIteration (ε := Unit) 2 5 defaultTokenCounter true none "" []
        [Message.mk Role.system (some "ssss"), Message.mk Role.user (some "aaaa"),
         Message.mk Role.user (some c3MidContent), Message.mk Role.user (some "cccc")] =
      .ok ("Summarized messages",
           [Message.mk Role.user (some c3MidContent)],
           [Message.mk Role.system (some "ssss"),
            mkSummaryMessage "Summarized messages",
            Message.mk Role.user (some "aaaa"), Message.mk Role.user (some "cccc")]) ∧
    ¬ ∃ n : Nat,
        [Message.mk Role.user (some c3MidContent)] =
          ([Message.mk Role.user (some "aaaa"),
            Message.mk Role.user (some c3MidContent),
            Message.mk Role.user (some "cccc")]).take n ∧
        [Message.mk Role.user (some "aaaa"), Message.mk Role.user (some "cccc")] =
          ([Message.mk Role.user (some "aaaa"),
            Message.mk Role.user (some c3MidContent),
            Message.mk Role.user (some "cccc")]).drop n := by
  constructor
  · decide
  · rintro ⟨n, h1, h2⟩
    have hlen := congrArg List.length h1
    simp only [List.length_take, List.length_cons, List.length_nil] at hlen
    have hn : n = 1 := by omega
    subst hn
    simp only [List.take_succ_cons, List.take_zero] at h1
    exact absurd h1 (by decide)

/-- Claim C3 (amended): whenever the post-turn total exceeds the threshold and
the fold set is non-empty, `afterIteration` partitions the candidates (the
messages after the system prompt and after the previous-summary marker, when
present) by the newest-first greedy selection: `toKeep` and `toFold` each
preserve the original chronological order (both are sublists of the
candidates), together they cover the candidates exactly (the candidate list
is a permutation of `toKeep ++ toFold`, so no message is in both and none is
lost), and `toKeep`'s cumulative cost stays within `activeBufferTokens`.
However `toFold` need not be strictly older than everything kept: the greedy
scan can fold a large newer message while keeping a smaller older one, so
chronological coverage can have gaps (see the counterexample). -/
theorem afterIteration_partition {ε : Type} (abt threshold : Nat) (tc : String → Nat)
    (convId : Bool) (chat : Option (List Message → Except ε Message))
    (buffer : String) (archive : List Message) (messages : List Message)
    (total si : Nat) (toKeep toSummarize : List Message)
    (buf' : String) (arch' msgs' : List Message)
    (htot : calculateTotalTokens? messages tc = some total)
    (hgt : total > threshold)
    (hsi : startIdx? (ε := ε) messages = .ok si)
    (hpart : greedyPartition tc (abt : Int) (messages.drop si) = some (toKeep, toSummarize))
    (hne : toSummarize.isEmpty = false)
    (hrun : afterIteration abt threshold tc convId chat buffer archive messages =
      .ok (buf', arch', msgs')) :
    msgs' = messages.take 1 ++ [mkSummaryMessage buf'] ++ toKeep ∧
    arch' = (if convId then archive ++ toSummarize else archive) ∧
    toKeep.Sublist (messages.drop si) ∧
    toSummarize.Sublist (messages.drop si) ∧
    (messages.drop si).Perm (toKeep ++ toSummarize) ∧
    ∃ ksum, sumCosts? tc toKeep = some ksum ∧ ksum ≤ abt := by
  rw [afterIteration_compact_eq abt threshold tc convId chat buffer archive messages
    total si toKeep toSummarize htot hgt hsi hpart hne] at hrun
  obtain ⟨hksub, hfsub, hperm, s', hs', hbd⟩ := greedyPartition_spec hpart
  cases hgen : generateSummary chat toSummarize with
  | error e => rw [hgen] at hrun; simp [Except.mapError, Except.bind] at hrun
  | ok ns =>
      rw [hgen] at hrun
      simp only [Except.mapError, Except.bind, Except.ok.injEq, Prod.mk.injEq] at hrun
      obtain ⟨h1, h2, h3⟩ := hrun
      refine ⟨by rw [← h3, ← h1], h2.symm, hksub, hfsub, hperm, s', hs', ?_⟩
      rcases hbd with h | h
      · omega
      · subst h
        simp only [sumCosts?, Option.some.injEq] at hs'
        omega

/-- Witness for C3 (amended) at the gap-producing input of the
counterexample. -/
theorem afterIteration_partition_witness :
    (calculateTotalTokens?
        [Message.mk Role.system (some "ssss"), Message.mk Role.user (some "aaaa"),
         Message.mk Role.user (some c3MidContent), Message.mk Role.user (some "cccc")]
        defaultTokenCounter = some 13) ∧
    (13 > 5) ∧
    (startIdx? (ε := Unit)
        [Message.mk Role.system (some "ssss"), Message.mk Role.user (some "aaaa"),
         Message.mk Role.user (some c3MidContent), Message.mk Role.user (some "cccc")] =
      .ok 1) ∧
    (greedyPartition defaultTokenCounter ((2 : Nat) : Int)
        ([Message.mk Role.system (some "ssss"), Message.mk Role.user (some "aaaa"),
          Message.mk Role.user (some c3MidContent),
          Message.mk Role.user (some "cccc")].drop 1) =
      some ([Message.mk Role.user (some "aaaa"), Message.mk Role.user (some "cccc")],
            [Message.mk Role.user (some c3MidContent)])) ∧
    ([Message.mk Role.user (some c3MidContent)].isEmpty = false) ∧
    (afterIteration (ε := Unit) 2 5 defaultTokenCounter true none "" []
        [Message.mk Role.system (some "ssss"), Message.mk Role.user (some "aaaa"),
         Message.mk Role.user (some c3MidContent), Message.mk Role.user (some "cccc")] =
      .ok ("Summarized messages", [Message.mk Role.user (some c3MidContent)],
           [Message.mk Role.system (some "ssss"),
            mkSummaryMessage "Summarized messages",
            Message.mk Role.user (some "aaaa"), Message.mk Role.user (some "cccc")])) ∧
    ([Message.mk Role.system (some "ssss"), mkSummaryMessage "Summarized messages",
        Message.mk Role.user (some "aaaa"), Message.mk Role.user (some "cccc")] =
      [Message.mk Role.system (some "ssss"), Message.mk Role.user (some "aaaa"),
        Message.mk Role.user (some c3MidContent),
        Message.mk Role.user (some "cccc")].take 1 ++
        [mkSummaryMessage "Summarized messages"] ++
        [Message.mk Role.user (some "aaaa"), Message.mk Role.user (some "cccc")] ∧
     [Message.mk Role.user (some c3MidContent)] =
      (if true then [] ++ [Message.mk Role.user (some c3MidContent)] else []) ∧
     ([Message.mk Role.user (some "aaaa"),
        Message.mk Role.user (some "cccc")]).Sublist
       ([Message.mk Role.system (some "ssss"), Message.mk Role.user (some "aaaa"),
         Message.mk Role.user (some c3MidContent),
         Message.mk Role.user (some "cccc")].drop 1) ∧
     ([Message.mk Role.user (some c3MidContent)]).Sublist
       ([Message.mk Role.system (some "ssss"), Message.mk Role.user (some "aaaa"),
         Message.mk Role.user (some c3MidContent),
         Message.mk Role.user (some "cccc")].drop 1) ∧
     (([Message.mk Role.system (some "ssss"), Message.mk Role.user (some "aaaa"),
         Message.mk Role.user (some c3MidContent),
         Message.mk Role.user (some "cccc")].drop 1).Perm
       ([Message.mk Role.user (some "aaaa"), Message.mk Role.user (some "cccc")] ++
         [Message.mk Role.user (some c3MidContent)])) ∧
     ∃ ksum, sumCosts? defaultTokenCounter
         [Message.mk Role.user (some "aaaa"), Message.mk Role.user (some "cccc")] =
         some ksum ∧ ksum ≤ 2) :=
  ⟨by decide, by decide, by decide, by decide, by decide, by decide,
   afterIteration_partition (ε := Unit) 2 5 defaultTokenCounter true none "" []
     [Message.mk Role.system (some "ssss"), Message.mk Role.user (some "aaaa"),
      Message.mk Role.user (some c3MidContent), Message.mk Role.user (some "cccc")]
     13 1
     [Message.mk Role.user (some "aaaa"), Message.mk Role.user (some "cccc")]
     [Message.mk Role.user (some c3MidContent)]
     "Summarized messages" [Message.mk Role.user (some c3MidContent)]
     [Message.mk Role.system (some "ssss"), mkSummaryMessage "Summarized messages",
      Message.mk Role.user (some "aaaa"), Message.mk Role.user (some "cccc")]
     (by decide) (by decide) (by decide) (by decide) (by decide) (by decide)⟩

/-! ### Claim C9 -/

/-- Claim C9: the `recall_memory` output obeys the two-tier truncation.
First, each matched entry's content is individually capped at 3000
characters and, when cut, the rendered entry is the 3000-character slice
followed by the explicit marker stating the entry's original length.
Second, the total output is capped at 12000 characters: the loop stops
before an entry that would exceed the cap, so whenever the running text is
within the cap the loop's result stays within it.  Third, whenever the loop
was cut short overall, the final output is the loop's text with the closing
instruction to narrow the query appended. -/
theorem recall_two_tier_truncation :
    (∀ (m : Message) (c : String), m.content = some c → 3000 < c.length →
      renderEntry m =
        "\n---\n[" ++ m.role.render ++ "]: " ++
          (String.mk (c.data.take 3000) ++
            "\n... [Content Truncated, original length: " ++ toString c.length ++
            " chars]") ∧
      ∃ p q, renderEntry m = p ++ toString c.length ++ q) ∧
    (∀ (entries : List Message) (output : String), output.length ≤ 12000 →
      ((recallLoop entries output output.length).1).length ≤ 12000) ∧
    (∀ (history : List Message) (query : String),
      (searchHistory history query).isEmpty = false →
      (recallLoop (searchHistory history query)
          ("Found " ++ toString (searchHistory history query).length ++
            " matches in history:\n")
          ("Found " ++ toString (searchHistory history query).length ++
            " matches in history:\n").length).2 = true →
      recallExecute true history query =
        (recallLoop (searchHistory history query)
            ("Found " ++ toString (searchHistory history query).length ++
              " matches in history:\n")
            ("Found " ++ toString (searchHistory history query).length ++
              " matches in history:\n").length).1 ++ recallWarning query) := by
  refine ⟨?_, ?_, ?_⟩
  · intro m c hc hlen
    constructor
    · simp only [renderEntry, hc, Option.getD_some]
      rw [if_pos hlen]
    · refine ⟨"\n---\n[" ++ m.role.render ++ "]: " ++
        (String.mk (c.data.take 3000) ++
          "\n... [Content Truncated, original length: "), " chars]", ?_⟩
      simp only [renderEntry, hc, Option.getD_some]
      rw [if_pos hlen]
      simp only [String.append_assoc]
  · intro entries
    induction entries with
    | nil =>
        intro output h
        simpa [recallLoop] using h
    | cons m rest ih =>
        intro output h
        simp only [recallLoop]
        by_cases hgt : output.length + (renderEntry m).length > 12000
        · rw [if_pos hgt]
          exact h
        · rw [if_neg hgt]
          have hlen : (output ++ renderEntry m).length ≤ 12000 := by
            rw [String.length_append]; omega
          have happ := ih (output ++ renderEntry m) hlen
          rw [String.length_append] at happ
          exact happ
  · intro history query hne hT
    simp only [recallExecute, hne, hT]
    simp

/-- A 3001-character content, above the per-entry cap. -/
def c9LongContent : String := String.mk (List.replicate 3001 'a')

/-- A 40-character archived entry for the total-cap witness. -/
def c9Entry : Message :=
  Message.mk Role.user (some "0123456789012345678901234567890123456789")

/-- 300 archived copies: enough rendered text to hit the 12000-character
total cap. -/
def c9History : List Message := List.replicate 300 c9Entry

set_option maxRecDepth 8000 in
/-- Witness for C9: a 3001-character entry is cut with the marker; the loop
bound holds from an in-cap start; a 300-entry result set overflows the total
cap, and the output is the loop text plus the closing warning. -/
theorem recall_two_tier_truncation_witness :
    ((Message.mk Role.user (some c9LongContent)).content = some c9LongContent ∧
      3000 < c9LongContent.length ∧
      (renderEntry (Message.mk Role.user (some c9LongContent)) =
          "\n---\n[" ++ (Message.mk Role.user (some c9LongContent)).role.render ++ "]: " ++
            (String.mk (c9LongContent.data.take 3000) ++
              "\n... [Content Truncated, original length: " ++
              toString c9LongContent.length ++ " chars]") ∧
        ∃ p q, renderEntry (Message.mk Role.user (some c9LongContent)) =
          p ++ toString c9LongContent.length ++ q)) ∧
    (("x" : String).length ≤ 12000 ∧
      ((recallLoop [] "x" ("x" : String).length).1).length ≤ 12000) ∧
    ((searchHistory c9History "0").isEmpty = false ∧
      (recallLoop (searchHistory c9History "0")
          ("Found " ++ toString (searchHistory c9History "0").length ++
            " matches in history:\n")
          ("Found " ++ toString (searchHistory c9History "0").length ++
            " matches in history:\n").length).2 = true ∧
      recallExecute true c9History "0" =
        (recallLoop (searchHistory c9History "0")
            ("Found " ++ toString (searchHistory c9History "0").length ++
              " matches in history:\n")
            ("Found " ++ toString (searchHistory c9History "0").length ++
              " matches in history:\n").length).1 ++ recallWarning "0") := by
  have hlen : (3000 : Nat) < c9LongContent.length := by
    have h : c9LongContent.length = 3001 := by
      show (List.replicate 3001 'a').length = 3001
      exact List.length_replicate 3001 'a'
    omega
  have hne : (searchHistory c9History "0").isEmpty = false := by decide
  have hT : (recallLoop (searchHistory c9History "0")
      ("Found " ++ toString (searchHistory c9History "0").length ++
        " matches in history:\n")
      ("Found " ++ toString (searchHistory c9History "0").length ++
        " matches in history:\n").length).2 = true := by decide
  exact ⟨⟨rfl, hlen,
      recall_two_tier_truncation.1 (Message.mk Role.user (some c9LongContent))
        c9LongContent rfl hlen⟩,
    ⟨by decide, recall_two_tier_truncation.2.1 [] "x" (by decide)⟩,
    ⟨hne, hT, recall_two_tier_truncation.2.2 c9History "0" hne hT⟩⟩

end PocketAgent
